import Mathlib

/-!
Verification of the Green Time Schedule core: settlement-period time model,
window generation and scoring, slot selection, and the TTL forecast cache.

Instants are modelled as natural numbers of minutes since an epoch midnight
(1440 minutes per civil day); civil dates are day indices (`t / 1440`).
Cache wall-clock times are naturals (seconds).  Python dicts that preserve
insertion order are modelled as association lists.
-/

namespace GreenTime

/-- One minute-resolution day length. -/
def minutesPerDay : Nat := 1440

/-- Model of `get_settlement_period` (src/app/utils/time_utils.py):
settlement period 1..48 of the instant's civil day. -/
def get_settlement_period (t : Nat) : Nat :=
  t % 1440 / 30 + 1

/-- The civil date (day index) of an instant, i.e. Python's `dt.date()`. -/
def dateOf (t : Nat) : Nat := t / 1440

/-- Model of `datetime_from_period` (src/app/utils/time_utils.py): start and end
instants of a settlement period on a given date. -/
def datetime_from_period (date : Nat) (period : Nat) : Nat × Nat :=
  let minutesSinceMidnight := (period - 1) * 30
  let hours := minutesSinceMidnight / 60
  let minutes := minutesSinceMidnight % 60
  let startDt := date * 1440 + hours * 60 + minutes
  (startDt, startDt + 30)

/-- The date→periods mapping built by `get_date_periods_between`,
as an insertion-ordered association list. -/
abbrev DatePeriods := List (Nat × List Nat)

/-- The `result[date_str]` lookup (first match; keys are unique). -/
def dpLookup (m : DatePeriods) (d : Nat) : List Nat :=
  match m.lookup d with
  | some ps => ps
  | none => []

/-- Model of `if date_str not in result: result[date_str] = []`. -/
def dpEnsure (m : DatePeriods) (d : Nat) : DatePeriods :=
  if (m.lookup d).isSome then m else m ++ [(d, [])]

/-- Model of `result[date_str].append(p)`: append `p` to the list stored at `d`. -/
def dpAppend (m : DatePeriods) (d : Nat) (p : Nat) : DatePeriods :=
  m.map (fun e => if e.1 = d then (e.1, e.2 ++ [p]) else e)

/-- Model of the padding statement: extend `result[date_str]` with every
period of 1..48 it does not yet contain, in ascending order. -/
def dpFill (m : DatePeriods) (d : Nat) : DatePeriods :=
  m.map (fun e =>
    if e.1 = d then
      (e.1, e.2 ++ ((List.range 48).map (· + 1)).filter (fun q => ¬ q ∈ e.2))
    else e)

/-- One iteration of the `while current_dt < end_dt` loop body of
`get_date_periods_between`: record the current (date, period) pair, then —
after stepping 30 minutes — pad the current date with all its missing
periods whenever the stepped instant has left the start instant's civil
date. -/
def gdpbStep (startDt : Nat) (current : Nat) (result : DatePeriods) :
    DatePeriods :=
  let d := dateOf current
  let p := get_settlement_period current
  let result1 := dpEnsure result d
  let result2 :=
    if p ∈ dpLookup result1 d then result1 else dpAppend result1 d p
  if dateOf (current + 30) ≠ dateOf startDt ∧ (dpLookup result2 d).length < 48 then
    dpFill result2 d
  else result2

/-- The `while current_dt < end_dt` loop of `get_date_periods_between`. -/
def gdpbLoop (startDt endDt : Nat) (current : Nat) (result : DatePeriods) :
    DatePeriods :=
  if h : current < endDt then
    gdpbLoop startDt endDt (current + 30) (gdpbStep startDt current result)
  else result
termination_by endDt - current
decreasing_by
  have h30 : current < current + 30 := by omega
  exact Nat.sub_lt_sub_left h h30

/-- Model of `get_date_periods_between` (src/app/utils/time_utils.py). -/
def get_date_periods_between (startDt endDt : Nat) : DatePeriods :=
  if startDt ≥ endDt then []
  else gdpbLoop startDt endDt startDt []

/-- The `while current_start + window_delta <= end_dt` loop of
`generate_time_windows`. -/
def gtwLoop (endDt windowMinutes : Nat) (currentStart : Nat) :
    List (Nat × Nat) :=
  if h : currentStart + windowMinutes ≤ endDt then
    (currentStart, currentStart + windowMinutes) ::
      gtwLoop endDt windowMinutes (currentStart + 30)
  else []
termination_by endDt + 1 - currentStart
decreasing_by
  have hle : currentStart ≤ endDt := le_trans (Nat.le_add_right _ _) h
  have : currentStart < endDt + 1 := by omega
  exact Nat.sub_lt_sub_left this (by omega)

/-- Model of `generate_time_windows` (src/app/utils/time_utils.py). -/
def generate_time_windows (startDt endDt : Nat) (windowMinutes : Nat) :
    List (Nat × Nat) :=
  let w1 := if windowMinutes < 30 then 30 else windowMinutes
  let w2 := ((w1 + 29) / 30) * 30
  if startDt + w2 > endDt then []
  else gtwLoop endDt w2 startDt

/-! ## Window scoring and slot selection (src/app/services/schedule_service.py) -/

/-- Errors raised by `ScheduleService.schedule_job`:
`NoViableTimeSlotError` and `InvalidScheduleRequestError`. -/
inductive SchedError where
  | noViableTimeSlot
  | invalidRequest
deriving DecidableEq, Repr

/-- Intensity data fetched per date: each date maps to the list of
`{"period": p, "intensity": i}` records (other record fields are unused by
the scorer). -/
abbrev CarbonData := List (Nat × List (Nat × Nat))

/-- Model of building the dict `period_map` from the records of one date and
looking a period up in it: a dict comprehension keeps the last record for a
duplicated period, hence the lookup on the reversed list. -/
def periodLookup (data : List (Nat × Nat)) (p : Nat) : Option Nat :=
  data.reverse.lookup p

/-- The `for period in periods` body of `_calculate_window_intensity`:
`total_intensity += ...; period_count += 1` on a match, skip otherwise.
The accumulator is the `(total_intensity, period_count)` pair. -/
def accumPeriod (data : List (Nat × Nat)) (acc2 : Nat × Nat) (p : Nat) :
    Nat × Nat :=
  match periodLookup data p with
  | none => acc2
  | some i => (acc2.1 + i, acc2.2 + 1)

/-- The `for date_str, periods in date_periods.items()` body of
`_calculate_window_intensity`: `continue` on a date absent from the fetched
data, else accumulate over that date's periods. -/
def accumDate (carbonData : CarbonData) (acc : Nat × Nat)
    (dp : Nat × List Nat) : Nat × Nat :=
  match carbonData.lookup dp.1 with
  | none => acc
  | some data => dp.2.foldl (accumPeriod data) acc

/-- Model of `ScheduleService._calculate_window_intensity`: sum and count the forecast
intensities of all (date, period) pairs of the window that are present in
`carbonData`; raise `NoViableTimeSlotError` when none matched, otherwise
return the truncated integer mean. -/
def calculate_window_intensity (startT endT : Nat) (carbonData : CarbonData) :
    Except SchedError Nat :=
  let tc := (get_date_periods_between startT endT).foldl
    (accumDate carbonData) (0, 0)
  if tc.2 = 0 then .error .noViableTimeSlot
  else .ok (tc.1 / tc.2)

/-- The forecast intensities of one date's periods that are present in the
fetched data, in traversal order. -/
def matchedOfDate (carbonData : CarbonData) (dp : Nat × List Nat) :
    List Nat :=
  match carbonData.lookup dp.1 with
  | none => []
  | some data => dp.2.filterMap (periodLookup data)

/-- The multiset (in traversal order) of forecast intensities matched by a
window — the values `_calculate_window_intensity` sums. -/
def matchedIntensities (startT endT : Nat) (carbonData : CarbonData) :
    List Nat :=
  (get_date_periods_between startT endT).flatMap (matchedOfDate carbonData)

/-- The `for start_time, end_time in time_windows` scoring loop of
`schedule_job`: the first window whose scoring raises aborts the whole
request. -/
def scoreWindows (carbonData : CarbonData) :
    List (Nat × Nat) → Except SchedError (List (Nat × Nat × Nat))
  | [] => .ok []
  | (s, e) :: rest =>
    match calculate_window_intensity s e carbonData with
    | .error err => .error err
    | .ok a =>
      match scoreWindows carbonData rest with
      | .error err => .error err
      | .ok l => .ok ((s, e, a) :: l)

/-- Value of `settings.MIN_JOB_DURATION_MINUTES` (src/app/config.py). -/
def MIN_JOB_DURATION_MINUTES : Nat := 30

/-- Value of `settings.MAX_JOB_DURATION_MINUTES` (src/app/config.py). -/
def MAX_JOB_DURATION_MINUTES : Nat := 1440

/-- Value of `settings.MAX_ALTERNATIVE_SLOTS` (src/app/config.py). -/
def MAX_ALTERNATIVE_SLOTS : Nat := 3

/-- Python's stable `list.sort(key=lambda x: x[2])` on scored windows
`(start, end, intensity)`: modelled as insertion sort on `≤` of the
intensity component, which is stable. -/
def sortByIntensity (l : List (Nat × Nat × Nat)) : List (Nat × Nat × Nat) :=
  List.insertionSort (fun a b => a.2.2 ≤ b.2.2) l

/-- Model of `ScheduleService.schedule_job` reduced to its scheduling core: request
validation (`_validate_request` plus the duration-fits check), window
generation, scoring, the stable sort by intensity, and selection of the
optimal slot followed by the alternatives.  The returned list is the
response's slot sequence `optimal :: alternatives` as
`(start, end, intensity)` triples; response metadata (carbon index labels,
confidence, periods analyzed) is derived from it elsewhere.  The two
`datetime.utcnow()` readings are modelled as the single instant `now`. -/
def schedule_job_core (now deadline durationMinutes : Nat)
    (carbonData : CarbonData) : Except SchedError (List (Nat × Nat × Nat)) :=
  if durationMinutes < MIN_JOB_DURATION_MINUTES then .error .invalidRequest
  else if MAX_JOB_DURATION_MINUTES < durationMinutes then .error .invalidRequest
  else if deadline ≤ now then .error .invalidRequest
  else if deadline < now + durationMinutes then .error .invalidRequest
  else
    let timeWindows := generate_time_windows now deadline durationMinutes
    if timeWindows.isEmpty then .error .noViableTimeSlot
    else
      match scoreWindows carbonData timeWindows with
      | .error err => .error err
      | .ok wi => .ok ((sortByIntensity wi).take (MAX_ALTERNATIVE_SLOTS + 1))

/-- Model of `CarbonIndex` (src/app/models/carbon.py). -/
inductive CarbonIndex where
  | veryLow
  | low
  | moderate
  | high
  | veryHigh
deriving DecidableEq, Repr

/-- Model of `ScheduleService._get_carbon_index`. -/
def get_carbon_index (intensity : Nat) : CarbonIndex :=
  if intensity ≤ 100 then .veryLow
  else if intensity ≤ 150 then .low
  else if intensity ≤ 250 then .moderate
  else if intensity ≤ 350 then .high
  else .veryHigh

/-! ## TTL cache (src/app/services/cache_service.py) -/

/-- Model of `SimpleCache._cache`: an insertion-ordered dict from key to
`(value, optional expiry instant)`; wall-clock seconds are naturals. -/
abbrev Cache (α : Type) := List (String × α × Option Nat)

/-- Model of `SimpleCache.get` at wall-clock time `now`: a present entry whose expiry
has passed is deleted and reported absent.  Returns the result together with
the updated store. -/
def cache_get {α : Type} (c : Cache α) (key : String) (now : Nat) :
    Option α × Cache α :=
  match c.lookup key with
  | none => (none, c)
  | some (v, expiry) =>
    match expiry with
    | some e => if e < now then (none, c.filter (fun en => en.1 ≠ key)) else (some v, c)
    | none => (some v, c)

/-- Model of `SimpleCache.set` at wall-clock time `now`: stores `(value, now + ttl)`
(no expiry when `ttl` is absent), replacing any entry under the same key. -/
def cache_set {α : Type} (c : Cache α) (key : String) (v : α)
    (ttl : Option Nat) (now : Nat) : Cache α :=
  let expiry := ttl.map (fun t => now + t)
  if (c.lookup key).isSome then
    c.map (fun en => if en.1 = key then (key, v, expiry) else en)
  else c ++ [(key, v, expiry)]

/-- Model of `SimpleCache.delete`: removes the entry if the key is physically present
(expiry is not consulted) and reports whether it was. -/
def cache_delete {α : Type} (c : Cache α) (key : String) : Bool × Cache α :=
  if (c.lookup key).isSome then (true, c.filter (fun en => en.1 ≠ key))
  else (false, c)

/-- Whether an entry is expired at wall-clock time `now`
(`expiry is not None and expiry < now`). -/
def entryExpired {α : Type} (now : Nat) (en : String × α × Option Nat) : Bool :=
  match en.2.2 with
  | some e => e < now
  | none => false

/-- Model of `SimpleCache.clear_expired` at wall-clock time `now`: removes every
expired entry and reports how many were removed. -/
def clear_expired {α : Type} (c : Cache α) (now : Nat) : Nat × Cache α :=
  ((c.filter (entryExpired now)).length, c.filter (fun en => ¬ entryExpired now en))

/-- Model of `CacheService.get_carbon_forecast_key`: an empty or absent period list
falls to the whole-day `:all` key (Python truthiness of `periods`). -/
def get_carbon_forecast_key (date : String) (periods : Option (List Nat)) :
    String :=
  match periods with
  | some ps =>
    if ps.isEmpty then "carbon_forecast:" ++ date ++ ":all"
    else
      let periodsStr :=
        String.intercalate "-" ((List.insertionSort (· ≤ ·) ps).map toString)
      "carbon_forecast:" ++ date ++ ":" ++ periodsStr
  | none => "carbon_forecast:" ++ date ++ ":all"

/-- The spec's effective window duration: `max(30, duration rounded up to a
multiple of 30)`. -/
def effectiveDuration (m : Nat) : Nat := max 30 (((m + 29) / 30) * 30)

/-- Ranking order claimed for the selector's output: ascending intensity,
ties broken by ascending start time. -/
def rankedBefore (a b : Nat × Nat × Nat) : Prop :=
  a.2.2 < b.2.2 ∨ (a.2.2 = b.2.2 ∧ a.1 < b.1)

/-! ## Theorems -/

/-- C7: the carbon-index classification maps intensity `≤ 100` to very low,
`101..150` to low, `151..250` to moderate, `251..350` to high and `≥ 351`
to very high, all thresholds being inclusive upper bounds. -/
theorem carbon_index_thresholds (n : Nat) :
    (n ≤ 100 → get_carbon_index n = CarbonIndex.veryLow) ∧
    (101 ≤ n ∧ n ≤ 150 → get_carbon_index n = CarbonIndex.low) ∧
    (151 ≤ n ∧ n ≤ 250 → get_carbon_index n = CarbonIndex.moderate) ∧
    (251 ≤ n ∧ n ≤ 350 → get_carbon_index n = CarbonIndex.high) ∧
    (351 ≤ n → get_carbon_index n = CarbonIndex.veryHigh) := by
  unfold get_carbon_index
  split_ifs with h1 h2 h3 h4 <;>
    refine ⟨fun h => ?_, fun h => ?_, fun h => ?_, fun h => ?_, fun h => ?_⟩ <;>
    first | rfl | omega

/-- Witness for C7 at all the boundary intensities. -/
theorem carbon_index_thresholds_witness :
    get_carbon_index 100 = CarbonIndex.veryLow ∧
    get_carbon_index 101 = CarbonIndex.low ∧
    get_carbon_index 150 = CarbonIndex.low ∧
    get_carbon_index 151 = CarbonIndex.moderate ∧
    get_carbon_index 250 = CarbonIndex.moderate ∧
    get_carbon_index 251 = CarbonIndex.high ∧
    get_carbon_index 350 = CarbonIndex.high ∧
    get_carbon_index 351 = CarbonIndex.veryHigh :=
  ⟨(carbon_index_thresholds 100).1 (by decide),
   (carbon_index_thresholds 101).2.1 (by decide),
   (carbon_index_thresholds 150).2.1 (by decide),
   (carbon_index_thresholds 151).2.2.1 (by decide),
   (carbon_index_thresholds 250).2.2.1 (by decide),
   (carbon_index_thresholds 251).2.2.2.1 (by decide),
   (carbon_index_thresholds 350).2.2.2.1 (by decide),
   (carbon_index_thresholds 351).2.2.2.2 (by decide)⟩

/-- C8: the settlement-period round trip: converting an instant to its
period, taking the start instant of that period's bounds on any date, and
converting back yields the same period. -/
theorem settlement_period_roundtrip (t date : Nat) :
    get_settlement_period (datetime_from_period date (get_settlement_period t)).1 =
      get_settlement_period t := by
  simp only [get_settlement_period, datetime_from_period]
  omega

/-- C10: `delete` reports the physical presence of an entry and ignores
expiry: on a stored entry whose expiry instant has passed but which has not
been evicted, `delete` returns `true`, while `get` at the same instant
returns absent. -/
theorem delete_reports_physical_presence {α : Type} (c : Cache α)
    (k : String) (now : Nat) (v : α) (e : Nat)
    (hlook : c.lookup k = some (v, some e)) (hexp : e < now) :
    (cache_delete c k).1 = true ∧ (cache_get c k now).1 = none := by
  constructor
  · simp [cache_delete, hlook]
  · simp [cache_get, hlook, hexp]

/-- Witness for C10: a cache holding one entry that expired at time 1,
observed at time 2. -/
theorem delete_reports_physical_presence_witness :
    (cache_delete ([("k", 0, some 1)] : Cache Nat) "k").1 = true ∧
    (cache_get ([("k", 0, some 1)] : Cache Nat) "k" 2).1 = none :=
  delete_reports_physical_presence [("k", 0, some 1)] "k" 2 0 1 (by decide)
    (by decide)

/-- C3 counterexample: `set("k", 7, ttl=1)` at time 0, then `get` at time 2
returns absent — but the `clear_expired` right after that get reports 0
entries removed, not 1, because the get already evicted the entry. -/
theorem cache_clear_after_get_counterexample :
    (cache_get (cache_set ([] : Cache Nat) "k" 7 (some 1) 0) "k" 2).1 = none ∧
    (clear_expired
      (cache_get (cache_set ([] : Cache Nat) "k" 7 (some 1) 0) "k" 2).2 2).1 = 0 ∧
    (clear_expired
      (cache_get (cache_set ([] : Cache Nat) "k" 7 (some 1) 0) "k" 2).2 2).1 ≠ 1 := by
  refine ⟨?_, ?_, ?_⟩ <;> decide

/-- C3 (amended): after `set(k, v, ttl)` on an empty store, a `get(k)`
before the expiry instant returns `v`; a `get(k)` after the expiry instant
returns absent and evicts the entry, so the `clear_expired` performed
immediately after that post-expiry get reports 0 entries removed. -/
theorem cache_ttl_lifecycle {α : Type} (k : String) (v : α)
    (ttl t0 t1 t2 : Nat) (h1 : t1 < t0 + ttl) (h2 : t0 + ttl < t2) :
    (cache_get (cache_set ([] : Cache α) k v (some ttl) t0) k t1).1 = some v ∧
    (cache_get (cache_set ([] : Cache α) k v (some ttl) t0) k t2).1 = none ∧
    (clear_expired
      (cache_get (cache_set ([] : Cache α) k v (some ttl) t0) k t2).2 t2).1 = 0 := by
  have hset : cache_set ([] : Cache α) k v (some ttl) t0 =
      [(k, v, some (t0 + ttl))] := by simp [cache_set]
  rw [hset]
  have hnl : ¬ (t0 + ttl < t1) := by omega
  refine ⟨?_, ?_, ?_⟩ <;>
    simp [cache_get, List.lookup, clear_expired, entryExpired, hnl, h2]

/-- Closed form of the window-generation loop: windows start every 30
minutes from `cur` as long as they end by `endDt`. -/
theorem gtwLoop_closed (endDt w : Nat) : ∀ (n cur : Nat),
    endDt + 1 - cur ≤ n →
    gtwLoop endDt w cur =
      (List.range (if cur + w ≤ endDt then (endDt - (cur + w)) / 30 + 1 else 0)).map
        (fun k => (cur + 30 * k, cur + 30 * k + w)) := by
  intro n
  induction n with
  | zero =>
    intro cur hn
    rw [gtwLoop]
    have hc : ¬ (cur + w ≤ endDt) := by omega
    simp [hc]
  | succ n ih =>
    intro cur hn
    rw [gtwLoop]
    by_cases hc : cur + w ≤ endDt
    · rw [dif_pos hc, ih (cur + 30) (by omega), if_pos hc]
      by_cases hc2 : cur + 30 + w ≤ endDt
      · rw [if_pos hc2]
        have hK : (endDt - (cur + w)) / 30 + 1 =
            ((endDt - (cur + 30 + w)) / 30 + 1) + 1 := by omega
        rw [hK]
        conv_rhs => rw [List.range_succ_eq_map]
        rw [List.map_cons, List.map_map]
        refine congrArg₂ List.cons (by simp) ?_
        refine List.map_congr_left (fun k _ => ?_)
        simp only [Function.comp_apply, Prod.mk.injEq]
        omega
      · rw [if_neg hc2]
        have hK : (endDt - (cur + w)) / 30 + 1 = 1 := by omega
        rw [hK]
        simp [List.range_succ]
    · rw [dif_neg hc, if_neg hc]
      simp

/-- C4: `generate_time_windows` computes the effective duration
`d = max(30, duration rounded up to a multiple of 30)`, returns the empty
list when `start + d > end`, and otherwise returns exactly the windows
`[start + 30k, start + 30k + d)` in ascending order of start, for each `k`
such that the window end is at most `end`. -/
theorem generate_time_windows_spec (s e m : Nat) :
    (generate_time_windows s e m =
      if s + effectiveDuration m > e then []
      else (List.range ((e - (s + effectiveDuration m)) / 30 + 1)).map
        (fun k => (s + 30 * k, s + 30 * k + effectiveDuration m))) ∧
    (∀ k : Nat,
      (¬ s + effectiveDuration m > e ∧
        k < (e - (s + effectiveDuration m)) / 30 + 1) ↔
      s + 30 * k + effectiveDuration m ≤ e) := by
  have hw : (((if m < 30 then 30 else m) + 29) / 30) * 30 = effectiveDuration m := by
    unfold effectiveDuration
    split_ifs <;> omega
  constructor
  · show (if s + (((if m < 30 then 30 else m) + 29) / 30) * 30 > e then []
        else gtwLoop e ((((if m < 30 then 30 else m) + 29) / 30) * 30) s) = _
    rw [hw]
    by_cases hgt : s + effectiveDuration m > e
    · rw [if_pos hgt, if_pos hgt]
    · rw [if_neg hgt, if_neg hgt,
        gtwLoop_closed e (effectiveDuration m) (e + 1 - s) s (Nat.le_refl _),
        if_pos (by omega)]
  · intro k
    have h30 : 30 ≤ effectiveDuration m := Nat.le_max_left _ _
    omega

/-- Witness for C4: the spec's example — duration 45 rounds to 60, and
`now = 10:00`, `deadline = 12:00`, duration 60 yields exactly the windows
10:00–11:00, 10:30–11:30, 11:00–12:00. -/
theorem generate_time_windows_spec_witness :
    effectiveDuration 45 = 60 ∧
    generate_time_windows 600 720 60 = [(600, 660), (630, 690), (660, 720)] ∧
    generate_time_windows 600 720 45 = [(600, 660), (630, 690), (660, 720)] :=
  ⟨by decide,
   (generate_time_windows_spec 600 720 60).1.trans (by decide),
   (generate_time_windows_spec 600 720 45).1.trans (by decide)⟩

/-- Witness for C3 (amended): `k="k"`, `v=7`, `ttl=1`, set at 0, read at 0
and at 2. -/
theorem cache_ttl_lifecycle_witness :
    (cache_get (cache_set ([] : Cache Nat) "k" 7 (some 1) 0) "k" 0).1 = some 7 ∧
    (cache_get (cache_set ([] : Cache Nat) "k" 7 (some 1) 0) "k" 2).1 = none ∧
    (clear_expired
      (cache_get (cache_set ([] : Cache Nat) "k" 7 (some 1) 0) "k" 2).2 2).1 = 0 :=
  cache_ttl_lifecycle "k" 7 1 0 0 2 (by decide) (by decide)

/-- Folding the per-period accumulator over a date's period list adds the
sum and the count of the matched intensities. -/
theorem foldl_accumPeriod_spec (data : List (Nat × Nat)) (ps : List Nat)
    (acc : Nat × Nat) :
    ps.foldl (accumPeriod data) acc =
      (acc.1 + (ps.filterMap (periodLookup data)).sum,
       acc.2 + (ps.filterMap (periodLookup data)).length) := by
  induction ps generalizing acc with
  | nil => simp
  | cons p ps ih =>
    rw [List.foldl_cons, List.filterMap_cons]
    cases h : periodLookup data p with
    | none => simp only [accumPeriod, h, ih]
    | some i =>
      simp only [accumPeriod, h, ih, List.sum_cons, List.length_cons,
        Prod.mk.injEq]
      omega

/-- One step of the per-date accumulator adds the sum and the count of that
date's matched intensities. -/
theorem accumDate_spec (cd : CarbonData) (acc : Nat × Nat)
    (dp : Nat × List Nat) :
    accumDate cd acc dp =
      (acc.1 + (matchedOfDate cd dp).sum,
       acc.2 + (matchedOfDate cd dp).length) := by
  unfold accumDate matchedOfDate
  cases h : cd.lookup dp.1 with
  | none => simp
  | some data => exact foldl_accumPeriod_spec data dp.2 acc

/-- Folding the per-date accumulator over all date/period groups yields the
sum and the count of all matched intensities. -/
theorem foldl_accumDate_spec (cd : CarbonData) (dps : List (Nat × List Nat))
    (acc : Nat × Nat) :
    dps.foldl (accumDate cd) acc =
      (acc.1 + (dps.flatMap (matchedOfDate cd)).sum,
       acc.2 + (dps.flatMap (matchedOfDate cd)).length) := by
  induction dps generalizing acc with
  | nil => simp
  | cons dp dps ih =>
    rw [List.foldl_cons, accumDate_spec, ih]
    simp only [List.flatMap_cons, List.sum_append, List.length_append,
      Prod.mk.injEq]
    omega

/-- C6: whenever a window's overlapping periods resolve to a non-empty list
of forecast intensities, the scored intensity is their integer-truncated
mean `sum / count`. -/
theorem window_intensity_truncated_mean (startT endT : Nat)
    (cd : CarbonData) (h : matchedIntensities startT endT cd ≠ []) :
    calculate_window_intensity startT endT cd =
      Except.ok ((matchedIntensities startT endT cd).sum /
        (matchedIntensities startT endT cd).length) := by
  have hlen : (matchedIntensities startT endT cd).length ≠ 0 := by
    simpa [List.length_eq_zero] using h
  unfold calculate_window_intensity
  rw [foldl_accumDate_spec]
  simp only [Nat.zero_add]
  rw [if_neg (by simpa [matchedIntensities] using hlen)]
  simp [matchedIntensities]

/-- Witness for C6: a window spanning exactly two periods with intensities
120 and 110 scores `(120+110)/2 = 115` (truncation, not rounding). -/
theorem window_intensity_truncated_mean_witness :
    matchedIntensities 600 660 [(0, [(21, 120), (22, 110)])] = [120, 110] ∧
    calculate_window_intensity 600 660 [(0, [(21, 120), (22, 110)])] =
      Except.ok 115 := by
  have hm : matchedIntensities 600 660 [(0, [(21, 120), (22, 110)])] =
      [120, 110] := by
    simp [matchedIntensities, get_date_periods_between, gdpbLoop, gdpbStep,
      dpEnsure, dpAppend, dpFill, dpLookup, dateOf, get_settlement_period,
      matchedOfDate, periodLookup, List.lookup]
  refine ⟨hm, ?_⟩
  have h := window_intensity_truncated_mean 600 660
    [(0, [(21, 120), (22, 110)])] (by rw [hm]; decide)
  rw [hm] at h
  simpa using h

/-- Ensuring a key that is already in the store leaves it unchanged. -/
theorem dpEnsure_same (d : Nat) (l : List Nat) :
    dpEnsure [(d, l)] d = [(d, l)] := by
  simp [dpEnsure, List.lookup]

/-- Looking up the key of the singleton store returns its list. -/
theorem dpLookup_same (d : Nat) (l : List Nat) : dpLookup [(d, l)] d = l := by
  simp [dpLookup, List.lookup]

/-- Appending under the key of the singleton store appends to its list. -/
theorem dpAppend_same (d : Nat) (l : List Nat) (p : Nat) :
    dpAppend [(d, l)] d p = [(d, l ++ [p])] := by
  simp [dpAppend]

/-- A loop iteration that stays on the start instant's civil date appends
the current settlement period and does not pad. -/
theorem gdpbStep_same_day (s cur : Nat) (l : List Nat)
    (hd : dateOf cur = dateOf s) (hd2 : dateOf (cur + 30) = dateOf s)
    (hmem : get_settlement_period cur ∉ l) :
    gdpbStep s cur [(dateOf s, l)] =
      [(dateOf s, l ++ [get_settlement_period cur])] := by
  simp only [gdpbStep, hd, hd2, dpEnsure_same, dpLookup_same, dpAppend_same,
    if_neg hmem, ne_eq, not_true_eq_false, false_and, if_false]

/-- The first loop iteration on the empty store records the start instant's
(date, period) pair, provided the 30-minute step stays on the same date. -/
theorem gdpbStep_start (s : Nat) (hd2 : dateOf (s + 30) = dateOf s) :
    gdpbStep s s [] = [(dateOf s, [get_settlement_period s])] := by
  simp [gdpbStep, dpEnsure, dpAppend, dpLookup, List.lookup, hd2]

/-- The enumeration loop is the identity once `current` has reached `endDt`. -/
theorem gdpbLoop_terminal (s e cur : Nat) (r : DatePeriods) (h : e ≤ cur) :
    gdpbLoop s e cur r = r := by
  rw [gdpbLoop, dif_neg (by omega)]

/-- Adding whole 30-minute steps within the same civil day advances the
settlement period by the number of steps. -/
theorem period_add_steps (s k : Nat) (h : dateOf (s + 30 * k) = dateOf s) :
    get_settlement_period (s + 30 * k) = get_settlement_period s + k := by
  simp only [get_settlement_period, dateOf] at *
  omega

/-- Invariant of the enumeration loop when every step stays on the start
date: after `j` steps the store holds exactly the first `j` periods, and the
loop completes it to the first `K` periods. -/
theorem gdpbLoop_same_day (s e K : Nat) (hK : K = (e - s + 29) / 30)
    (hlt : s < e)
    (hday : ∀ i, i ≤ K → dateOf (s + 30 * i) = dateOf s) :
    ∀ n j, j ≤ K → K - j ≤ n →
      gdpbLoop s e (s + 30 * j)
        [(dateOf s, (List.range j).map (fun k => get_settlement_period s + k))] =
      [(dateOf s, (List.range K).map (fun k => get_settlement_period s + k))] := by
  intro n
  induction n with
  | zero =>
    intro j hj hn
    have hjK : j = K := by omega
    subst hjK
    exact gdpbLoop_terminal _ _ _ _ (by omega)
  | succ n ih =>
    intro j hj hn
    by_cases hjK : j = K
    · subst hjK
      exact gdpbLoop_terminal _ _ _ _ (by omega)
    · have hjlt : j < K := by omega
      have hcur : s + 30 * j < e := by omega
      have hd : dateOf (s + 30 * j) = dateOf s := hday j hj
      have hd2 : dateOf (s + 30 * j + 30) = dateOf s := by
        have : s + 30 * j + 30 = s + 30 * (j + 1) := by ring
        rw [this]
        exact hday (j + 1) (by omega)
      have hp : get_settlement_period (s + 30 * j) =
          get_settlement_period s + j := period_add_steps s j hd
      have hmem : get_settlement_period (s + 30 * j) ∉
          (List.range j).map (fun k => get_settlement_period s + k) := by
        rw [hp]
        intro hin
        simp only [List.mem_map, List.mem_range] at hin
        obtain ⟨a, ha, hae⟩ := hin
        omega
      rw [gdpbLoop, dif_pos hcur,
        gdpbStep_same_day s (s + 30 * j) _ hd hd2 hmem, hp]
      have hL : ((List.range j).map (fun k => get_settlement_period s + k)) ++
          [get_settlement_period s + j] =
          (List.range (j + 1)).map (fun k => get_settlement_period s + k) := by
        rw [List.range_succ, List.map_append, List.map_cons, List.map_nil]
      rw [hL]
      have harith : s + 30 * j + 30 = s + 30 * (j + 1) := by ring
      rw [harith]
      exact ih (j + 1) (by omega) (by omega)

/-- C1 (amended): when the 30-minute enumeration — including its final step
past the last enumerated instant — stays on the start instant's civil date,
`get_date_periods_between` returns the single date key `dateOf start` whose
list is exactly the periods touched by the 30-minute steps from `start` up
to (exclusive) `end`, in ascending order with no duplicates. -/
theorem periods_overlapping_same_day (s e : Nat) (hlt : s < e)
    (hday : dateOf (s + 30 * ((e - s + 29) / 30)) = dateOf s) :
    get_date_periods_between s e =
      [(dateOf s, (List.range ((e - s + 29) / 30)).map
        (fun k => get_settlement_period (s + 30 * k)))] ∧
    ((List.range ((e - s + 29) / 30)).map
        (fun k => get_settlement_period (s + 30 * k))).Pairwise (· < ·) := by
  have hmono : ∀ i, i ≤ (e - s + 29) / 30 → dateOf (s + 30 * i) = dateOf s := by
    intro i hi
    have h1 : dateOf s ≤ dateOf (s + 30 * i) :=
      Nat.div_le_div_right (by omega)
    have h2 : dateOf (s + 30 * i) ≤ dateOf (s + 30 * ((e - s + 29) / 30)) :=
      Nat.div_le_div_right (by omega)
    omega
  have hmap : (List.range ((e - s + 29) / 30)).map
      (fun k => get_settlement_period (s + 30 * k)) =
      (List.range ((e - s + 29) / 30)).map
      (fun k => get_settlement_period s + k) := by
    refine List.map_congr_left (fun k hk => ?_)
    rw [List.mem_range] at hk
    exact period_add_steps s k (hmono k (by omega))
  have hKpos : 1 ≤ (e - s + 29) / 30 := by omega
  constructor
  · rw [hmap]
    unfold get_date_periods_between
    rw [if_neg (by omega), gdpbLoop, dif_pos hlt,
      gdpbStep_start s (by simpa using hmono 1 hKpos)]
    have h1 : [(dateOf s, [get_settlement_period s])] =
        [(dateOf s, (List.range 1).map (fun k => get_settlement_period s + k))] := by
      have hr : List.range 1 = [0] := by decide
      simp [hr]
    have h2 : s + 30 = s + 30 * 1 := by ring
    rw [h1, h2]
    exact gdpbLoop_same_day s e _ rfl hlt hmono ((e - s + 29) / 30) 1 hKpos
      (by omega)
  · rw [hmap]
    exact List.Pairwise.map _ (fun a b (hab : a < b) => by omega)
      (List.pairwise_lt_range _)

/-- Witness for C1 (amended): the window 10:00–11:00 on day 0 yields the
single key day 0 with periods 21 and 22. -/
theorem periods_overlapping_same_day_witness :
    get_date_periods_between 600 660 =
      [(dateOf 600, (List.range ((660 - 600 + 29) / 30)).map
        (fun k => get_settlement_period (600 + 30 * k)))] ∧
    ((List.range ((660 - 600 + 29) / 30)).map
        (fun k => get_settlement_period (600 + 30 * k))).Pairwise (· < ·) :=
  periods_overlapping_same_day 600 660 (by decide) (by decide)

/-- C1 counterexample: on the one-hour range 23:30 day 0 to 00:30 day 1 the
code does not return `{day 0: [48], day 1: [1]}` — it pads both dates with
all their remaining periods, returning `{day 0: [48, 1, ..., 47],
day 1: [1, ..., 48]}`. -/
theorem periods_overlapping_midnight_counterexample :
    get_date_periods_between 1410 1470 ≠ [(0, [48]), (1, [1])] ∧
    get_date_periods_between 1410 1470 =
      [(0, 48 :: (List.range 47).map (· + 1)),
       (1, (List.range 48).map (· + 1))] := by
  have h : get_date_periods_between 1410 1470 =
      [(0, 48 :: (List.range 47).map (· + 1)),
       (1, (List.range 48).map (· + 1))] := by
    simp [get_date_periods_between, gdpbLoop, gdpbStep, dpEnsure, dpAppend,
      dpFill, dpLookup, dateOf, get_settlement_period, List.lookup]
    decide
  refine ⟨?_, h⟩
  rw [h]
  decide

/-- The scorer only ever raises the no-viable-slot error. -/
theorem calculate_error_eq (s e : Nat) (cd : CarbonData) (err : SchedError)
    (h : calculate_window_intensity s e cd = .error err) :
    err = SchedError.noViableTimeSlot := by
  simp only [calculate_window_intensity] at h
  split_ifs at h with hc
  exact (Except.error.inj h).symm

/-- If the scoring loop aborts, its error is the no-viable-slot error and
some window's scoring raised it. -/
theorem scoreWindows_error_spec (cd : CarbonData) :
    ∀ (tw : List (Nat × Nat)) (err : SchedError),
      scoreWindows cd tw = .error err →
      err = SchedError.noViableTimeSlot ∧
      ∃ se ∈ tw, calculate_window_intensity se.1 se.2 cd =
        .error SchedError.noViableTimeSlot := by
  intro tw
  induction tw with
  | nil => intro err h; simp [scoreWindows] at h
  | cons w rest ih =>
    intro err h
    obtain ⟨s, e⟩ := w
    rw [scoreWindows] at h
    cases hc : calculate_window_intensity s e cd with
    | error err2 =>
      rw [hc] at h
      have he2 : err2 = SchedError.noViableTimeSlot :=
        calculate_error_eq s e cd err2 hc
      refine ⟨(Except.error.inj h).symm.trans he2, ⟨(s, e), ?_⟩⟩
      exact ⟨List.mem_cons_self _ _, he2 ▸ hc⟩
    | ok a =>
      rw [hc] at h
      cases hr : scoreWindows cd rest with
      | error err3 =>
        rw [hr] at h
        obtain ⟨he3, se, hse, hcw⟩ := ih err3 hr
        exact ⟨(Except.error.inj h).symm.trans he3,
          se, List.mem_cons_of_mem _ hse, hcw⟩
      | ok l => rw [hr] at h; simp at h

/-- If some window's scoring raises, the scoring loop aborts with the
no-viable-slot error. -/
theorem scoreWindows_error_of_mem (cd : CarbonData) :
    ∀ tw : List (Nat × Nat),
      (∃ se ∈ tw, calculate_window_intensity se.1 se.2 cd =
        .error SchedError.noViableTimeSlot) →
      ∃ err, scoreWindows cd tw = .error err := by
  intro tw
  induction tw with
  | nil => intro h; simp at h
  | cons w rest ih =>
    intro h
    obtain ⟨s, e⟩ := w
    rw [scoreWindows]
    cases hc : calculate_window_intensity s e cd with
    | error err2 => exact ⟨err2, rfl⟩
    | ok a =>
      obtain ⟨se, hse, hcw⟩ := h
      rcases List.mem_cons.mp hse with heq | hmem
      · rw [heq] at hcw
        simp only at hcw
        rw [hcw] at hc
        simp at hc
      · obtain ⟨err, herr⟩ := ih ⟨se, hmem, hcw⟩
        rw [herr]
        exact ⟨err, rfl⟩

/-- A window whose matched-intensity list is empty is never scored: the
scorer raises instead of returning a value. -/
theorem calculate_no_data_never_ok (s e : Nat) (cd : CarbonData) (a : Nat)
    (hm : matchedIntensities s e cd = []) :
    calculate_window_intensity s e cd ≠ .ok a := by
  simp only [calculate_window_intensity, foldl_accumDate_spec]
  have hlen : ((get_date_periods_between s e).flatMap (matchedOfDate cd)).length = 0 := by
    have : (get_date_periods_between s e).flatMap (matchedOfDate cd) = [] := hm
    rw [this]
    rfl
  rw [if_pos (by omega)]
  simp

/-- C2 (amended): for a request that passes validation, the scheduler fails
with the no-viable-slot error exactly when the window generator produces
zero windows or when at least one generated window matches zero known
forecast periods (the first such window aborts the whole request — not only
when every window fails); and a window that matches zero periods is never
assigned a score. -/
theorem schedule_no_viable_slot_iff (now dl m : Nat) (cd : CarbonData)
    (hval : schedule_job_core now dl m cd ≠ .error SchedError.invalidRequest) :
    (schedule_job_core now dl m cd = .error SchedError.noViableTimeSlot ↔
      (generate_time_windows now dl m = [] ∨
        ∃ se ∈ generate_time_windows now dl m,
          calculate_window_intensity se.1 se.2 cd =
            .error SchedError.noViableTimeSlot)) ∧
    (∀ s e a, matchedIntensities s e cd = [] →
      calculate_window_intensity s e cd ≠ .ok a) := by
  refine ⟨?_, fun s e a hm => calculate_no_data_never_ok s e cd a hm⟩
  simp only [schedule_job_core] at hval ⊢
  split_ifs at hval ⊢ with h1 h2 h3 h4 h5
  · exact absurd rfl hval
  · exact absurd rfl hval
  · exact absurd rfl hval
  · exact absurd rfl hval
  · have hnil : generate_time_windows now dl m = [] :=
      List.isEmpty_iff.mp h5
    simp [hnil]
  · have hne : ¬ generate_time_windows now dl m = [] := by
      intro hh
      rw [List.isEmpty_iff] at h5
      exact h5 hh
    cases hsw : scoreWindows cd (generate_time_windows now dl m) with
    | error err =>
      obtain ⟨he, hex⟩ := scoreWindows_error_spec cd _ err hsw
      subst he
      simp only [hsw]
      exact ⟨fun _ => Or.inr hex, fun _ => trivial⟩
    | ok wi =>
      simp only [hsw]
      constructor
      · intro hcontra
        simp at hcontra
      · intro hor
        rcases hor with hl | hr
        · exact absurd hl hne
        · obtain ⟨err, herr⟩ := scoreWindows_error_of_mem cd _ hr
          rw [herr] at hsw
          simp at hsw

/-- C2 counterexample: with forecast data covering only periods 21–22 of
day 0, the first window 10:00–11:00 scores successfully (105), yet the
request 10:00→12:00 for 60 minutes fails with the no-viable-slot error,
because the later window 11:00–12:00 matches zero periods. -/
theorem schedule_partial_data_counterexample :
    calculate_window_intensity 600 660 [(0, [(21, 100), (22, 110)])] =
      Except.ok 105 ∧
    (600, 660) ∈ generate_time_windows 600 720 60 ∧
    schedule_job_core 600 720 60 [(0, [(21, 100), (22, 110)])] =
      Except.error SchedError.noViableTimeSlot := by
  refine ⟨?_, ?_, ?_⟩
  · simp [calculate_window_intensity, get_date_periods_between, gdpbLoop,
      gdpbStep, dpEnsure, dpAppend, dpFill, dpLookup, dateOf,
      get_settlement_period, accumDate, accumPeriod, periodLookup,
      List.lookup]
  · simp [generate_time_windows, gtwLoop]
  · simp [schedule_job_core, generate_time_windows, gtwLoop, scoreWindows,
      calculate_window_intensity, get_date_periods_between, gdpbLoop,
      gdpbStep, dpEnsure, dpAppend, dpFill, dpLookup, dateOf,
      get_settlement_period, accumDate, accumPeriod, periodLookup,
      List.lookup, sortByIntensity, MIN_JOB_DURATION_MINUTES,
      MAX_JOB_DURATION_MINUTES, MAX_ALTERNATIVE_SLOTS]

/-- Witness for C2 (amended), at the same concrete partially-covered
request. -/
theorem schedule_no_viable_slot_iff_witness :
    (schedule_job_core 600 720 60 [(0, [(21, 100), (22, 110)])] =
        .error SchedError.noViableTimeSlot ↔
      (generate_time_windows 600 720 60 = [] ∨
        ∃ se ∈ generate_time_windows 600 720 60,
          calculate_window_intensity se.1 se.2 [(0, [(21, 100), (22, 110)])] =
            .error SchedError.noViableTimeSlot)) ∧
    (∀ s e a, matchedIntensities s e [(0, [(21, 100), (22, 110)])] = [] →
      calculate_window_intensity s e [(0, [(21, 100), (22, 110)])] ≠ .ok a) :=
  schedule_no_viable_slot_iff 600 720 60 [(0, [(21, 100), (22, 110)])]
    (by
      simp [schedule_job_core, generate_time_windows, gtwLoop, scoreWindows,
        calculate_window_intensity, get_date_periods_between, gdpbLoop,
        gdpbStep, dpEnsure, dpAppend, dpFill, dpLookup, dateOf,
        get_settlement_period, accumDate, accumPeriod, periodLookup,
        List.lookup, sortByIntensity, MIN_JOB_DURATION_MINUTES,
        MAX_JOB_DURATION_MINUTES, MAX_ALTERNATIVE_SLOTS])

/-- A successful scoring pass preserves each window's (start, end) pair in
order. -/
theorem scoreWindows_ok_map (cd : CarbonData) :
    ∀ (tw : List (Nat × Nat)) (wi : List (Nat × Nat × Nat)),
      scoreWindows cd tw = .ok wi →
      wi.map (fun x => x.1) = tw.map (fun w => w.1) := by
  intro tw
  induction tw with
  | nil =>
    intro wi h
    simp only [scoreWindows] at h
    rw [← Except.ok.inj h]
    rfl
  | cons w rest ih =>
    intro wi h
    obtain ⟨s, e⟩ := w
    rw [scoreWindows] at h
    cases hc : calculate_window_intensity s e cd with
    | error err => rw [hc] at h; simp at h
    | ok a =>
      rw [hc] at h
      cases hr : scoreWindows cd rest with
      | error err => rw [hr] at h; simp at h
      | ok l =>
        rw [hr] at h
        rw [← Except.ok.inj h]
        simp only [List.map_cons]
        rw [ih l hr]

/-- Generated windows have strictly increasing start times. -/
theorem generate_time_windows_starts_lt (s e m : Nat) :
    (generate_time_windows s e m).Pairwise (fun a b => a.1 < b.1) := by
  simp only [generate_time_windows]
  split_ifs <;>
    first
      | exact List.Pairwise.nil
      | (rw [gtwLoop_closed e _ (e + 1 - s) s (Nat.le_refl _),
            List.pairwise_map]
         refine List.Pairwise.imp (fun {a b} hab => ?_)
           (List.pairwise_lt_range _)
         show s + 30 * a < s + 30 * b
         omega)

/-- Inserting a window with a strictly larger start into a well-ranked list,
ordered by `≤` on intensity, keeps the list well ranked: the stability of
the insertion realises the tie-break by start time. -/
theorem orderedInsert_rankedBefore (a : Nat × Nat × Nat) :
    ∀ l : List (Nat × Nat × Nat), l.Pairwise rankedBefore →
      (∀ c ∈ l, a.1 < c.1) →
      (l.orderedInsert (fun x y => x.2.2 ≤ y.2.2) a).Pairwise rankedBefore := by
  intro l
  induction l with
  | nil => intro _ _; simp
  | cons b bs ih =>
    intro hp ha
    rw [List.orderedInsert]
    obtain ⟨hb, hbs⟩ := List.pairwise_cons.mp hp
    split_ifs with hr
    · refine List.pairwise_cons.mpr ⟨?_, hp⟩
      intro x hx
      rcases List.mem_cons.mp hx with hxb | hxbs
      · subst hxb
        rcases Nat.lt_or_ge a.2.2 x.2.2 with h | h
        · exact Or.inl h
        · exact Or.inr ⟨by omega, ha x hx⟩
      · have hbx := hb x hxbs
        rcases Nat.lt_or_ge a.2.2 x.2.2 with h | h
        · exact Or.inl h
        · refine Or.inr ⟨?_, ha x hx⟩
          rcases hbx with h1 | ⟨h1, _⟩ <;> omega
    · refine List.pairwise_cons.mpr
        ⟨?_, ih hbs (fun c hc => ha c (List.mem_cons_of_mem _ hc))⟩
      intro x hx
      rcases (List.mem_orderedInsert _).mp hx with hxa | hxbs
      · subst hxa
        exact Or.inl (by omega)
      · exact hb x hxbs

/-- The stable sort by intensity of a list with strictly increasing start
times is well ranked: ascending intensity, ties in ascending start order. -/
theorem sortByIntensity_rankedBefore :
    ∀ l : List (Nat × Nat × Nat), l.Pairwise (fun a b => a.1 < b.1) →
      (sortByIntensity l).Pairwise rankedBefore := by
  intro l
  induction l with
  | nil => intro _; simp [sortByIntensity]
  | cons a l ih =>
    intro hp
    obtain ⟨ha, hl⟩ := List.pairwise_cons.mp hp
    show (List.orderedInsert _ a (List.insertionSort _ l)).Pairwise rankedBefore
    refine orderedInsert_rankedBefore a _ (ih hl) ?_
    intro c hc
    exact ha c ((List.perm_insertionSort _ l).mem_iff.mp hc)

/-- C5: the selector's output sequence (the optimal window followed by the
alternative slots) is sorted ascending by average intensity, and two
windows of equal intensity appear in ascending start-time order. -/
theorem selector_sorted_tiebreak (now dl m : Nat) (cd : CarbonData)
    (out : List (Nat × Nat × Nat))
    (h : schedule_job_core now dl m cd = .ok out) :
    out.Pairwise rankedBefore := by
  simp only [schedule_job_core] at h
  split_ifs at h with h1 h2 h3 h4 h5
  cases hsw : scoreWindows cd (generate_time_windows now dl m) with
  | error err => rw [hsw] at h; simp at h
  | ok wi =>
    rw [hsw] at h
    have hout : out = (sortByIntensity wi).take (MAX_ALTERNATIVE_SLOTS + 1) :=
      (Except.ok.inj h).symm
    subst hout
    have htw := generate_time_windows_starts_lt now dl m
    have h1p : ((generate_time_windows now dl m).map (fun w => w.1)).Pairwise
        (· < ·) := List.pairwise_map.mpr htw
    rw [← scoreWindows_ok_map cd _ wi hsw] at h1p
    have hwi : wi.Pairwise (fun a b => a.1 < b.1) := List.pairwise_map.mp h1p
    exact List.Pairwise.sublist (List.take_sublist _ _)
      (sortByIntensity_rankedBefore wi hwi)

/-- Witness for C5: three windows all scoring 115 are returned in ascending
start order. -/
theorem selector_sorted_tiebreak_witness :
    schedule_job_core 600 720 60
        [(0, [(21, 120), (22, 110), (23, 120), (24, 110)])] =
      .ok [(600, 660, 115), (630, 690, 115), (660, 720, 115)] ∧
    List.Pairwise rankedBefore
      [(600, 660, 115), (630, 690, 115), (660, 720, 115)] := by
  have h : schedule_job_core 600 720 60
      [(0, [(21, 120), (22, 110), (23, 120), (24, 110)])] =
      .ok [(600, 660, 115), (630, 690, 115), (660, 720, 115)] := by
    simp [schedule_job_core, generate_time_windows, gtwLoop, scoreWindows,
      calculate_window_intensity, get_date_periods_between, gdpbLoop,
      gdpbStep, dpEnsure, dpAppend, dpFill, dpLookup, dateOf,
      get_settlement_period, accumDate, accumPeriod, periodLookup,
      List.lookup, sortByIntensity, MIN_JOB_DURATION_MINUTES,
      MAX_JOB_DURATION_MINUTES, MAX_ALTERNATIVE_SLOTS]
  exact ⟨h, selector_sorted_tiebreak 600 720 60 _ _ h⟩

/-- Decimal digit characters are digits. -/
theorem digitChar_mod_isDigit (m : Nat) :
    (Nat.digitChar (m % 10)).isDigit = true := by
  have h : m % 10 < 10 := Nat.mod_lt _ (by decide)
  have hall : ∀ k, k < 10 → (Nat.digitChar k).isDigit = true := by decide
  exact hall _ h

/-- Every character accumulated by the base-10 digit conversion is a
digit, given the accumulator holds only digits. -/
theorem toDigitsCore_isDigit (fuel : Nat) :
    ∀ (n : Nat) (ds : List Char), (∀ c ∈ ds, c.isDigit = true) →
      ∀ c ∈ Nat.toDigitsCore 10 fuel n ds, c.isDigit = true := by
  induction fuel with
  | zero =>
    intro n ds hds c hc
    rw [Nat.toDigitsCore] at hc
    exact hds c hc
  | succ fuel ih =>
    intro n ds hds c hc
    simp only [Nat.toDigitsCore] at hc
    by_cases h : n / 10 = 0
    · rw [if_pos h] at hc
      rcases List.mem_cons.mp hc with h1 | h2
      · rw [h1]
        exact digitChar_mod_isDigit n
      · exact hds c h2
    · rw [if_neg h] at hc
      refine ih (n / 10) _ ?_ c hc
      intro x hx
      rcases List.mem_cons.mp hx with h1 | h2
      · rw [h1]
        exact digitChar_mod_isDigit n
      · exact hds x h2

/-- The digit conversion never shrinks a non-empty accumulator away. -/
theorem toDigitsCore_ne_nil (b : Nat) (fuel : Nat) :
    ∀ (n : Nat) (ds : List Char), ds ≠ [] →
      Nat.toDigitsCore b fuel n ds ≠ [] := by
  induction fuel with
  | zero =>
    intro n ds hds
    rw [Nat.toDigitsCore]
    exact hds
  | succ fuel ih =>
    intro n ds hds
    simp only [Nat.toDigitsCore]
    by_cases h : n / b = 0
    · rw [if_pos h]
      simp
    · rw [if_neg h]
      exact ih (n / b) _ (by simp)

/-- The base-10 representation of a natural is non-empty. -/
theorem toDigits_ne_nil (n : Nat) : Nat.toDigits 10 n ≠ [] := by
  rw [Nat.toDigits]
  simp only [Nat.toDigitsCore]
  by_cases h : n / 10 = 0
  · rw [if_pos h]
    simp
  · rw [if_neg h]
    exact toDigitsCore_ne_nil 10 n (n / 10) _ (by simp)

/-- Every character of `Nat.repr` is a digit. -/
theorem repr_data_isDigit (n : Nat) :
    ∀ c ∈ (Nat.repr n).data, c.isDigit = true := by
  intro c hc
  have hdata : (Nat.repr n).data = Nat.toDigits 10 n := rfl
  rw [hdata] at hc
  exact toDigitsCore_isDigit (n + 1) n [] (by simp) c hc

/-- The tail-recursive interleaving worker of `String.intercalate` only
extends its accumulator on the right. -/
theorem intercalate_go_data (sep : String) :
    ∀ (as : List String) (acc : String),
      ∃ t, (String.intercalate.go acc sep as).data = acc.data ++ t := by
  intro as
  induction as with
  | nil =>
    intro acc
    exact ⟨[], by simp [String.intercalate.go]⟩
  | cons a as ih =>
    intro acc
    obtain ⟨t, ht⟩ := ih (acc ++ sep ++ a)
    refine ⟨sep.data ++ a.data ++ t, ?_⟩
    rw [String.intercalate.go, ht]
    simp [String.data_append]

/-- Interleaving a separator through a non-empty list of strings produces a
string starting with the first of them. -/
theorem intercalate_data_cons (sep a : String) (as : List String) :
    ∃ t, (String.intercalate sep (a :: as)).data = a.data ++ t := by
  rw [String.intercalate]
  exact intercalate_go_data sep as a

/-- Cancelling a common left part of a string equation. -/
theorem string_append_left_cancel (p s t : String) (h : p ++ s = p ++ t) :
    s = t := by
  have hd : p.data ++ s.data = p.data ++ t.data := by
    have := congrArg String.data h
    simpa [String.data_append] using this
  have hst : s.data = t.data := List.append_cancel_left hd
  cases s
  cases t
  exact congrArg String.mk (by simpa using hst)

/-- C9: the forecast cache key is a deterministic function of the date and
the periods: permuted period lists give the same key; a non-empty period
list gives a key distinct from the whole-day key; and an empty list
collapses to the same whole-day key as an absent period argument. -/
theorem forecast_key_deterministic (date : String) :
    (∀ ps₁ ps₂ : List Nat, ps₁.Perm ps₂ →
      get_carbon_forecast_key date (some ps₁) =
        get_carbon_forecast_key date (some ps₂)) ∧
    (∀ ps : List Nat, ps ≠ [] →
      get_carbon_forecast_key date (some ps) ≠
        get_carbon_forecast_key date none) ∧
    get_carbon_forecast_key date (some []) =
      get_carbon_forecast_key date none := by
  refine ⟨?_, ?_, by simp [get_carbon_forecast_key]⟩
  · intro ps₁ ps₂ hperm
    simp only [get_carbon_forecast_key]
    have hsort : List.insertionSort (· ≤ ·) ps₁ =
        List.insertionSort (· ≤ ·) ps₂ := by
      refine List.eq_of_perm_of_sorted ?_ (List.sorted_insertionSort _ _)
        (List.sorted_insertionSort _ _)
      exact ((List.perm_insertionSort _ ps₁).trans hperm).trans
        (List.perm_insertionSort _ ps₂).symm
    have hemp : ps₁.isEmpty = ps₂.isEmpty := by
      have hl := hperm.length_eq
      rcases ps₁ with _ | ⟨a, l⟩ <;> rcases ps₂ with _ | ⟨b, r⟩ <;> simp_all
    rw [hemp, hsort]
  · intro ps hne hkey
    simp only [get_carbon_forecast_key] at hkey
    rw [if_neg (by simpa [List.isEmpty_iff] using hne)] at hkey
    have hsne : List.insertionSort (· ≤ ·) ps ≠ [] := by
      have hlen := (List.perm_insertionSort (· ≤ ·) ps).length_eq
      intro hh
      rw [hh] at hlen
      exact hne (List.length_eq_zero.mp hlen.symm)
    obtain ⟨a, as, hcons⟩ := List.exists_cons_of_ne_nil hsne
    have hassoc : ("carbon_forecast:" ++ date ++ ":all" : String) =
        "carbon_forecast:" ++ date ++ ":" ++ "all" := by
      have : ∀ x y : String, x.data = y.data → x = y := by
        intro x y hxy
        cases x
        cases y
        exact congrArg String.mk (by simpa using hxy)
      refine this _ _ ?_
      simp [String.data_append]
    rw [hassoc] at hkey
    have hstr := string_append_left_cancel _ _ _ hkey
    have hdd := congrArg String.data hstr
    rw [hcons, List.map_cons] at hdd
    obtain ⟨t, ht⟩ := intercalate_data_cons "-" (toString a) (as.map toString)
    rw [ht] at hdd
    have hrepd : (toString a : String).data = Nat.toDigits 10 a := rfl
    obtain ⟨c, cs, hccs⟩ := List.exists_cons_of_ne_nil (toDigits_ne_nil a)
    rw [hrepd, hccs] at hdd
    have hca : c = 'a' := by
      have : c :: (cs ++ t) = ('a' :: ['l', 'l']) := by simpa using hdd
      exact (List.cons.inj this).1
    have hdig : c.isDigit = true := by
      refine repr_data_isDigit a c ?_
      have : (Nat.repr a).data = Nat.toDigits 10 a := rfl
      rw [this, hccs]
      exact List.mem_cons_self _ _
    rw [hca] at hdig
    exact absurd hdig (by decide)

/-- Witness for C9: permuted lists `[3,1,2]` and `[2,3,1]` share a key, the
key of `[1]` differs from the whole-day key, and the empty list collapses
to the whole-day key. -/
theorem forecast_key_deterministic_witness :
    get_carbon_forecast_key "2024-06-20" (some [3, 1, 2]) =
      get_carbon_forecast_key "2024-06-20" (some [2, 3, 1]) ∧
    get_carbon_forecast_key "2024-06-20" (some [1]) ≠
      get_carbon_forecast_key "2024-06-20" none ∧
    get_carbon_forecast_key "2024-06-20" (some []) =
      get_carbon_forecast_key "2024-06-20" none :=
  ⟨(forecast_key_deterministic "2024-06-20").1 [3, 1, 2] [2, 3, 1] (by decide),
   (forecast_key_deterministic "2024-06-20").2.1 [1] (by decide),
   (forecast_key_deterministic "2024-06-20").2.2⟩

end GreenTime
